import Mathlib

/-!
Verification of the trading-agent repository's core specification.

The repository under review ships the PostgreSQL schema
(`db/init/001_schema.sql`, `db/migrations/*.sql`) and the Next.js
dashboard API routes (trades, portfolio, macro, stocks, prospects,
history).  The Python agent that implements the Ledger, Impact Model,
Decision Engine and Risk Manager is not part of the sources; those
components are modelled here from the specification text, each such
definition marked `Modelled from the spec:` in its doc comment.
All monetary quantities are modelled as exact rationals, matching the
DECIMAL columns of the schema.
-/

namespace Trading

/-- Trade action, the `action` column of `trades` (`BUY` or `SELL`). -/
inductive Action
  | BUY
  | SELL
  deriving DecidableEq, Repr

/-- A trade intent: ticker, action, number of shares and unit price.
Mirrors the columns `ticker, action, shares, price` of a `trades` row. -/
structure TradeIntent where
  ticker : String
  action : Action
  shares : ℚ
  price : ℚ
  deriving DecidableEq, Repr

/-- An open position: one row of the `portfolio` table
(`ticker, shares, avg_price`). -/
structure Position where
  ticker : String
  shares : ℚ
  avg_price : ℚ
  deriving DecidableEq, Repr

/-- Ledger state: the single `balance.cash` value together with the set of
`portfolio` rows. -/
structure LedgerState where
  cash : ℚ
  positions : List Position
  deriving DecidableEq, Repr

/-- Rejection reasons of `Ledger.Apply`, from the spec's error taxonomy. -/
inductive LedgerError
  | invalidShares
  | insufficientFunds
  | oversoldPosition
  | invariantViolation
  deriving DecidableEq, Repr

/-- The `portfolio` row for a ticker, if any. -/
def findPos (ps : List Position) (t : String) : Option Position :=
  ps.find? (fun p => p.ticker == t)

/-- Remove every `portfolio` row of a ticker. -/
def removePos (ps : List Position) (t : String) : List Position :=
  ps.filter (fun p => p.ticker != t)

/-- Shares currently held for a ticker (0 when no row exists). -/
def heldShares (s : LedgerState) (t : String) : ℚ :=
  match findPos s.positions t with
  | some p => p.shares
  | none => 0

/-- Modelled from the spec: `Ledger.Apply` (§4.4); the Python ledger is not
among the sources.  A BUY debits cash and upserts the position with
weighted-average cost `(old_shares*old_avg + new_shares*price) /
(old_shares + new_shares)`; a BUY that would drive cash negative is
rejected.  A SELL exceeding held shares is rejected; otherwise it credits
cash and reduces the position, removing the row when it reaches zero
shares.  The post-apply invariant `cash >= 0` is checked. -/
def Ledger.Apply (s : LedgerState) (i : TradeIntent) :
    Except LedgerError LedgerState :=
  if i.shares ≤ 0 then .error .invalidShares
  else
    match i.action with
    | .BUY =>
      let cost := i.shares * i.price
      if s.cash < cost then .error .insufficientFunds
      else
        let newPositions :=
          match findPos s.positions i.ticker with
          | some p =>
            let total := p.shares + i.shares
            removePos s.positions i.ticker ++
              [⟨i.ticker, total, (p.shares * p.avg_price + i.shares * i.price) / total⟩]
          | none => s.positions ++ [⟨i.ticker, i.shares, i.price⟩]
        .ok ⟨s.cash - cost, newPositions⟩
    | .SELL =>
      match findPos s.positions i.ticker with
      | none => .error .oversoldPosition
      | some p =>
        if p.shares < i.shares then .error .oversoldPosition
        else
          let newCash := s.cash + i.shares * i.price
          if newCash < 0 then .error .invariantViolation
          else if p.shares == i.shares then
            .ok ⟨newCash, removePos s.positions i.ticker⟩
          else
            .ok ⟨newCash, removePos s.positions i.ticker ++
              [⟨i.ticker, p.shares - i.shares, p.avg_price⟩]⟩

/-- One step of a run: a rejected intent leaves the ledger untouched and the
run continues (spec §7: rejections are surfaced, not run-fatal). -/
def applyStep (s : LedgerState) (i : TradeIntent) : LedgerState :=
  match Ledger.Apply s i with
  | .ok s' => s'
  | .error _ => s

/-- Apply a sequence of intents in order, skipping rejected ones. -/
def runIntents (s : LedgerState) (l : List TradeIntent) : LedgerState :=
  l.foldl applyStep s

/-- The portfolio invariant of the spec's data model: at most one row per
ticker and strictly positive shares in every row. -/
def PosInvariant (ps : List Position) : Prop :=
  (∀ p ∈ ps, 0 < p.shares) ∧ ps.Pairwise (fun a b => a.ticker ≠ b.ticker)

/-- An open position together with the stop/target percentages stored on its
entry trade (`trades.stop_loss_pct`, `trades.target_pct`). -/
structure OpenPos where
  ticker : String
  shares : ℚ
  entry_price : ℚ
  stop_loss_pct : ℚ
  target_pct : ℚ
  deriving DecidableEq, Repr

/-- Stop level `entry_price × (1 + stop_loss_pct/100)`; the dashboard trades
route renders the same expression (`ROUND(price * (1 + stop_loss_pct/100), 2)`). -/
def stopLevel (p : OpenPos) : ℚ :=
  p.entry_price * (1 + p.stop_loss_pct / 100)

/-- Target level `entry_price × (1 + target_pct/100)`, as rendered by the
dashboard trades route. -/
def targetLevel (p : OpenPos) : ℚ :=
  p.entry_price * (1 + p.target_pct / 100)

/-- Modelled from the spec: the Risk Manager's breach test (§4.3); the
Python risk manager is not among the sources.  A breached position yields a
forced SELL of the full position at the latest price. -/
def breachIntent (p : OpenPos) (latest : ℚ) : Option TradeIntent :=
  if latest ≤ stopLevel p ∨ targetLevel p ≤ latest then
    some ⟨p.ticker, .SELL, p.shares, latest⟩
  else none

/-- Modelled from the spec: `ScanBreaches` (§4.3); positions without a
latest price are skipped. -/
def ScanBreaches (positions : List OpenPos) (latestPrice : String → Option ℚ) :
    List TradeIntent :=
  positions.filterMap (fun p => (latestPrice p.ticker).bind (breachIntent p))

/-- Direction of a macro input's impact, the `impact_direction` column of
`input_dependencies` ('cost' or 'revenue'). -/
inductive ImpactDirection
  | cost
  | revenue
  deriving DecidableEq, Repr

/-- One `input_dependencies` row: `macro_symbol` is nullable (qualitative
inputs such as "Stål" carry no tracked series), `impact_strength` ∈ [0,1]. -/
structure InputDependency where
  input_name : String
  macro_symbol : Option String
  impact_direction : ImpactDirection
  impact_strength : ℚ
  deriving DecidableEq, Repr

/-- Clamp a rational to the interval [-1, 1]. -/
def clamp1 (x : ℚ) : ℚ := max (-1) (min 1 x)

/-- Modelled from the spec: the fixed saturation threshold (§4.1 normalizes
`change_pct` by "a fixed saturation threshold"); 5 percentage points. -/
def saturationThreshold : ℚ := 5

/-- Normalized macro change: `change_pct` divided by the saturation
threshold, clamped to [-1, 1] (§4.1). -/
def normalizeChange (change_pct : ℚ) : ℚ :=
  clamp1 (change_pct / saturationThreshold)

/-- Modelled from the spec: one dependency's exposure contribution (§4.1).
Dependencies with a null `macro_symbol`, or whose symbol has no macro
observation, are skipped (`none`). -/
def contribution (macroChange : String → Option ℚ) (d : InputDependency) :
    Option ℚ :=
  match d.macro_symbol with
  | none => none
  | some sym =>
    match macroChange sym with
    | none => none
    | some ch =>
      match d.impact_direction with
      | .revenue => some (d.impact_strength * normalizeChange ch)
      | .cost => some (-(d.impact_strength * normalizeChange ch))

/-- Modelled from the spec: `ComputeExposure` (§4.1); the Python impact
model is not among the sources.  Contributions are summed over the
company's dependencies and the total is clamped to [-1, 1]. -/
def ComputeExposure (deps : List InputDependency)
    (macroChange : String → Option ℚ) : ℚ :=
  clamp1 ((deps.filterMap (contribution macroChange)).sum)

/-- One `learnings` row as consumed by the Decision Engine; `tickers` is the
candidate shape the rule matches. -/
structure Learning where
  category : String
  content : String
  confidence : ℚ
  tickers : List String
  active : Bool
  deriving DecidableEq, Repr

/-- Recognized configuration options of the Decision Engine (§6). -/
structure DecisionConfig where
  max_position_fraction : ℚ
  min_trade_value : ℚ
  min_confidence_buy : ℚ
  confidence_sell_floor : ℚ
  learning_penalty : ℚ
  deriving DecidableEq, Repr

/-- Association-list lookup for ticker-keyed rational inputs. -/
def lookupQ (l : List (String × ℚ)) (t : String) : Option ℚ :=
  (l.find? (fun e => e.1 == t)).map (fun e => e.2)

/-- Modelled from the spec: confidence scoring (§4.2 rule 2) — a pure
function of exposure score, signal and active learnings; matching active
"mistake" learnings apply a multiplicative penalty. -/
def confidenceScore (cfg : DecisionConfig) (learnings : List Learning)
    (t : String) (exposure : ℚ) (signal : ℚ) : ℚ :=
  let base := (clamp1 ((exposure + signal) / 2) + 1) * 50
  learnings.foldl
    (fun c l =>
      if l.active && l.tickers.contains t && (l.category == "mistake") then
        c * (1 - cfg.learning_penalty)
      else c) base

/-- The full decision-engine input of §4.2. -/
structure DecisionInput where
  exposures : List (String × ℚ)
  signals : List (String × ℚ)
  openPositions : List OpenPos
  latestPrices : List (String × ℚ)
  cash : ℚ
  learnings : List Learning
  cfg : DecisionConfig
  deriving DecidableEq, Repr

/-- Modelled from the spec: `ProposeIntents` (§4.2); the Python decision
engine is not among the sources.  Rule 1 emits mandatory breach SELLs;
rules 2–5 walk the exposure-ranked tickers, computing confidence, emitting
discretionary SELLs for weak holdings, and sized BUYs while provisionally
reserving cash. -/
def ProposeIntents (inp : DecisionInput) : List TradeIntent :=
  let priceOf := fun t => lookupQ inp.latestPrices t
  let forced := ScanBreaches inp.openPositions priceOf
  let forcedTickers := forced.map (fun i => i.ticker)
  let step := fun (acc : List TradeIntent × ℚ) (e : String × ℚ) =>
    let t := e.1
    if forcedTickers.contains t then acc
    else
      let conf := confidenceScore inp.cfg inp.learnings t e.2
        ((lookupQ inp.signals t).getD 0)
      match inp.openPositions.find? (fun p => p.ticker == t) with
      | some p =>
        if conf < inp.cfg.confidence_sell_floor ∨ e.2 < 0 then
          (acc.1 ++ [⟨t, .SELL, p.shares, (priceOf t).getD 0⟩], acc.2)
        else acc
      | none =>
        if inp.cfg.min_confidence_buy ≤ conf then
          let value := min acc.2 (inp.cash * inp.cfg.max_position_fraction) *
            (conf / 100)
          match priceOf t with
          | some px =>
            if inp.cfg.min_trade_value ≤ value ∧ 0 < px then
              (acc.1 ++ [⟨t, .BUY, value / px, px⟩], acc.2 - value)
            else acc
          | none => acc
        else acc
  forced ++ (inp.exposures.foldl step ([], inp.cash)).1

/-- One row of the `prices` table as used by the dashboard routes
(ticker, date, close); `date` is modelled as a day number. -/
structure PriceRow where
  ticker : String
  date : ℕ
  close : ℚ
  deriving DecidableEq, Repr

/-- One row of the `portfolio` table as read by the portfolio route. -/
structure PortfolioRow where
  ticker : String
  shares : ℚ
  deriving DecidableEq, Repr

/-- One row of the `balance` table as read by the portfolio route
(`SELECT cash, total_value FROM balance ORDER BY id DESC LIMIT 1`). -/
structure BalanceRow where
  cash : ℚ
  total_value : ℚ
  deriving DecidableEq, Repr

/-- The close of the most recent `prices` row of a ticker — the
`SELECT DISTINCT ON (ticker) ticker, close FROM prices ORDER BY ticker,
date DESC` subquery of the portfolio route (src/unnamed/part_004). -/
def latestClose (prices : List PriceRow) (t : String) : Option ℚ :=
  ((prices.filter (fun r => r.ticker == t)).foldl
    (fun best r =>
      match best with
      | none => some r
      | some b => if b.date < r.date then some r else some b) none).map
    (fun r => r.close)

/-- The portfolio route's positions query (src/unnamed/part_004):
`SUM(p.shares * pr.close)` over the inner join of `portfolio` with the
latest close per ticker; positions whose ticker has no price row are
dropped by the join, and the SQL SUM over no rows (NULL) becomes 0 via
`parseFloat(... || 0)`. -/
def positionsValue (portfolio : List PortfolioRow)
    (prices : List PriceRow) : ℚ :=
  (portfolio.filterMap
    (fun p => (latestClose prices p.ticker).map (fun c => p.shares * c))).sum

/-- The spec's reconciliation sum (§8): Σ position.shares × latest price at
the query time, a position without any price row contributing zero.  Stated
from the spec's words, to be compared with `positionsValue` from the code. -/
def specPositionsSum (portfolio : List PortfolioRow)
    (prices : List PriceRow) : ℚ :=
  (portfolio.map (fun p => p.shares * ((latestClose prices p.ticker).getD 0))).sum

/-- The JSON body of the portfolio reporting endpoint
(src/unnamed/part_004). -/
structure PortfolioResponse where
  cash : ℚ
  positions_value : ℚ
  total_value : ℚ
  pnl : ℚ
  pnl_pct : ℚ
  deriving DecidableEq, Repr

/-- The portfolio route GET of src/unnamed/part_004: reads the newest
balance row — defaulting to `{cash: 20000, total_value: 20000}` when the
table has no row — computes positions_value from the portfolio/prices join,
reports total_value = cash + positions_value and pnl/pnl_pct against the
fixed literal 20000; a thrown query error (`dbError`) yields the fixed
fallback body from the catch block. -/
def portfolioGET (balanceRows : List BalanceRow)
    (portfolio : List PortfolioRow) (prices : List PriceRow)
    (dbError : Bool) : PortfolioResponse :=
  if dbError then ⟨20000, 0, 20000, 0, 0⟩
  else
    let balance := balanceRows.head?.getD ⟨20000, 20000⟩
    let pv := positionsValue portfolio prices
    let total := balance.cash + pv
    ⟨balance.cash, pv, total, total - 20000, (total / 20000 - 1) * 100⟩

/-- One row of the `trades` table as returned by the trades listing route,
reduced to the row id and the ordering key `executed_at` (a timestamp
modelled as a natural number). -/
structure TradeRow where
  id : ℕ
  executed_at : ℕ
  deriving DecidableEq, Repr

/-- Descending insertion by `executed_at`. -/
def insertDesc (r : TradeRow) : List TradeRow → List TradeRow
  | [] => [r]
  | x :: xs =>
    if r.executed_at ≤ x.executed_at then x :: insertDesc r xs
    else r :: x :: xs

/-- `ORDER BY executed_at DESC` of the trades query. -/
def sortDesc (l : List TradeRow) : List TradeRow := l.foldr insertDesc []

/-- Rows sorted by `executed_at` in descending order. -/
def DescSorted (l : List TradeRow) : Prop :=
  l.Pairwise (fun a b => b.executed_at ≤ a.executed_at)

/-- An HTTP response of the trades route: status code and JSON-array body. -/
structure HttpResponse where
  status : ℕ
  body : List TradeRow
  deriving DecidableEq, Repr

/-- The trades listing GET of src/unnamed/part_001 (src/unnamed/part_002
has the same control flow): `SELECT ... FROM trades ORDER BY executed_at
DESC LIMIT 50` answered with `NextResponse.json(result.rows)` — status 200 —
and, in the catch block of a thrown database error (modelled as `none`),
`NextResponse.json([])`, also status 200. -/
def tradesGET (db : Option (List TradeRow)) : HttpResponse :=
  match db with
  | some rows => ⟨200, (sortDesc rows).take 50⟩
  | none => ⟨200, []⟩

end Trading

namespace Trading

theorem apply_ok_cash_nonneg (s : LedgerState) (i : TradeIntent)
    (s' : LedgerState) (h : Ledger.Apply s i = .ok s') : 0 ≤ s'.cash := by
  by_cases h0 : i.shares ≤ 0
  · simp [Ledger.Apply, h0] at h
  · cases hA : i.action
    · -- BUY
      by_cases hc : s.cash < i.shares * i.price
      · simp [Ledger.Apply, h0, hA, hc] at h
      · cases hF : findPos s.positions i.ticker
        all_goals simp [Ledger.Apply, h0, hA, hc, hF] at h
        all_goals rw [← h]
        all_goals simp only [not_lt] at hc
        all_goals simp [sub_nonneg, hc]
    · -- SELL
      cases hF : findPos s.positions i.ticker
      · simp [Ledger.Apply, h0, hA, hF] at h
      · rename_i p
        by_cases hov : p.shares < i.shares
        · simp [Ledger.Apply, h0, hA, hF, hov] at h
        · by_cases hneg : s.cash + i.shares * i.price < 0
          · simp [Ledger.Apply, h0, hA, hF, hov, hneg] at h
          · by_cases hall : p.shares = i.shares
            all_goals simp [Ledger.Apply, h0, hA, hF, hov, hneg, hall] at h
            all_goals rw [← h]
            all_goals simp only [not_lt] at hneg
            all_goals simpa using hneg

theorem applyStep_cash_nonneg (s : LedgerState) (i : TradeIntent)
    (h : 0 ≤ s.cash) : 0 ≤ (applyStep s i).cash := by
  unfold applyStep
  split
  · rename_i s' hok
    exact apply_ok_cash_nonneg s i s' hok
  · exact h

/-- C1: starting from any state with cash ≥ 0, applying any sequence of trade
intents through Ledger.Apply keeps the stored cash balance nonnegative; since
the start state and the sequence are arbitrary, the bound holds after every
individual Apply along the way. -/
theorem cash_nonneg_after_every_apply (s : LedgerState) (l : List TradeIntent)
    (h : 0 ≤ s.cash) : 0 ≤ (runIntents s l).cash := by
  induction l generalizing s with
  | nil => simpa [runIntents] using h
  | cons i l ih =>
    have hstep := applyStep_cash_nonneg s i h
    simpa [runIntents] using ih (applyStep s i) hstep

/-- Witness for C1 at a concrete start state and intent sequence. -/
theorem cash_nonneg_after_every_apply_witness :
    0 ≤ (runIntents ⟨100, []⟩ [⟨"AAA", .BUY, 2, 30⟩]).cash :=
  cash_nonneg_after_every_apply ⟨100, []⟩ [⟨"AAA", .BUY, 2, 30⟩] (by norm_num)

/-- C3: a SELL whose share count exceeds the shares currently held for that
ticker is rejected by Ledger.Apply (never clamped), and the run step leaves
cash and positions completely unchanged. -/
theorem oversized_sell_rejected (s : LedgerState) (i : TradeIntent)
    (hS : i.action = .SELL) (hover : heldShares s i.ticker < i.shares) :
    (∃ e, Ledger.Apply s i = .error e) ∧ applyStep s i = s := by
  have hrej : ∃ e, Ledger.Apply s i = .error e := by
    by_cases h0 : i.shares ≤ 0
    · exact ⟨.invalidShares, by simp [Ledger.Apply, h0]⟩
    · cases hF : findPos s.positions i.ticker
      · exact ⟨.oversoldPosition, by simp [Ledger.Apply, h0, hS, hF]⟩
      · rename_i p
        have hp : p.shares < i.shares := by
          simpa [heldShares, hF] using hover
        exact ⟨.oversoldPosition, by simp [Ledger.Apply, h0, hS, hF, hp]⟩
  obtain ⟨e, he⟩ := hrej
  exact ⟨⟨e, he⟩, by simp [applyStep, he]⟩

/-- Witness for C3: selling 5 shares with no position at all. -/
theorem oversized_sell_rejected_witness :
    (∃ e, Ledger.Apply ⟨100, []⟩ ⟨"AAA", .SELL, 5, 10⟩ = .error e) ∧
      applyStep ⟨100, []⟩ ⟨"AAA", .SELL, 5, 10⟩ = ⟨100, []⟩ :=
  oversized_sell_rejected ⟨100, []⟩ ⟨"AAA", .SELL, 5, 10⟩ rfl (by decide)

theorem findPos_removePos_append (ps : List Position) (q : Position)
    (t : String) (hq : q.ticker = t) :
    findPos (removePos ps t ++ [q]) t = some q := by
  induction ps with
  | nil => simp [findPos, removePos, hq]
  | cons p ps ih =>
    by_cases hp : p.ticker = t
    · simpa [removePos, hp] using ih
    · simpa [removePos, findPos, hp] using ih

/-- C4: a BUY applied to an existing position recomputes the average price as
(old_shares × old_avg + new_shares × price) / (old_shares + new_shares),
exactly, in the stored position row. -/
theorem buy_weighted_avg (s : LedgerState) (i : TradeIntent) (p : Position)
    (s' : LedgerState) (hB : i.action = .BUY)
    (hF : findPos s.positions i.ticker = some p)
    (h : Ledger.Apply s i = .ok s') :
    findPos s'.positions i.ticker =
      some ⟨i.ticker, p.shares + i.shares,
        (p.shares * p.avg_price + i.shares * i.price) / (p.shares + i.shares)⟩ := by
  by_cases h0 : i.shares ≤ 0
  · simp [Ledger.Apply, h0] at h
  · by_cases hc : s.cash < i.shares * i.price
    · simp [Ledger.Apply, h0, hB, hc] at h
    · simp [Ledger.Apply, h0, hB, hc, hF] at h
      rw [← h]
      exact findPos_removePos_append s.positions _ i.ticker rfl

/-- Witness for C4: buying 10 shares at 100 and then 10 at 120 stores the
exact weighted average 110. -/
theorem buy_weighted_avg_witness :
    findPos (⟨18800, [⟨"AAA", 20, 110⟩]⟩ : LedgerState).positions "AAA" =
      some ⟨"AAA", 20, 110⟩ := by
  have h := buy_weighted_avg ⟨20000, [⟨"AAA", 10, 100⟩]⟩ ⟨"AAA", .BUY, 10, 120⟩
    ⟨"AAA", 10, 100⟩ ⟨18800, [⟨"AAA", 20, 110⟩]⟩ rfl (by decide)
    (by norm_num [Ledger.Apply, findPos, removePos])
  rw [h]
  norm_num

theorem mem_removePos {p : Position} {ps : List Position} {t : String} :
    p ∈ removePos ps t ↔ p ∈ ps ∧ p.ticker ≠ t := by
  simp [removePos, List.mem_filter]

theorem pairwise_removePos {ps : List Position} {t : String}
    (h : ps.Pairwise (fun a b => a.ticker ≠ b.ticker)) :
    (removePos ps t).Pairwise (fun a b => a.ticker ≠ b.ticker) :=
  h.filter _

theorem findPos_removePos (ps : List Position) (t : String) :
    findPos (removePos ps t) t = none := by
  simp [findPos, removePos, List.find?_eq_none, List.mem_filter]

theorem findPos_mem {ps : List Position} {t : String} {p : Position}
    (h : findPos ps t = some p) : p ∈ ps ∧ p.ticker = t := by
  refine ⟨List.mem_of_find?_eq_some h, ?_⟩
  have := List.find?_some h
  simpa using this

theorem pairwise_upsert {ps : List Position} {t : String}
    (h : ps.Pairwise (fun a b => a.ticker ≠ b.ticker)) (q : Position)
    (hq : q.ticker = t) :
    (removePos ps t ++ [q]).Pairwise (fun a b => a.ticker ≠ b.ticker) := by
  rw [List.pairwise_append]
  refine ⟨pairwise_removePos h, by simp, ?_⟩
  intro a ha b hb
  rcases mem_removePos.mp ha with ⟨-, hne⟩
  simp only [List.mem_singleton] at hb
  rw [hb, hq]
  exact hne

/-- C8: Ledger.Apply preserves the portfolio invariant — at most one open
row per ticker, strictly positive shares in every stored row — and a SELL of
exactly the held shares removes the ticker's row instead of storing zero. -/
theorem position_rows_invariant (s : LedgerState) (i : TradeIntent)
    (s' : LedgerState) (hinv : PosInvariant s.positions)
    (h : Ledger.Apply s i = .ok s') :
    PosInvariant s'.positions ∧
      (i.action = .SELL → heldShares s i.ticker = i.shares →
        findPos s'.positions i.ticker = none) := by
  obtain ⟨hpos, hpw⟩ := hinv
  by_cases h0 : i.shares ≤ 0
  · simp [Ledger.Apply, h0] at h
  · have hish : 0 < i.shares := not_le.mp h0
    cases hA : i.action
    · -- BUY: the SELL conjunct is vacuous
      by_cases hc : s.cash < i.shares * i.price
      · simp [Ledger.Apply, h0, hA, hc] at h
      · cases hF : findPos s.positions i.ticker
        · simp [Ledger.Apply, h0, hA, hc, hF] at h
          refine ⟨⟨?_, ?_⟩, ?_⟩
          · intro p hp
            rw [← h] at hp
            simp only [List.mem_append, List.mem_singleton] at hp
            rcases hp with hp | hp
            · exact hpos p hp
            · rw [hp]
              exact hish
          · rw [← h]
            rw [List.pairwise_append]
            refine ⟨hpw, by simp, ?_⟩
            intro a ha b hb
            simp only [List.mem_singleton] at hb
            rw [hb]
            intro hcontra
            have := List.find?_eq_none.mp hF a ha
            simp at this
            exact this hcontra
          · intro hS
            cases hS
        · rename_i p
          simp [Ledger.Apply, h0, hA, hc, hF] at h
          obtain ⟨hmem, hqt⟩ := findPos_mem hF
          refine ⟨⟨?_, ?_⟩, ?_⟩
          · intro q hq
            rw [← h] at hq
            simp only [List.mem_append, List.mem_singleton] at hq
            rcases hq with hq | hq
            · exact hpos q (mem_removePos.mp hq).1
            · rw [hq]
              have hp := hpos p hmem
              simpa using add_pos hp hish
          · rw [← h]
            exact pairwise_upsert hpw _ rfl
          · intro hS
            cases hS
    · -- SELL
      cases hF : findPos s.positions i.ticker
      · simp [Ledger.Apply, h0, hA, hF] at h
      · rename_i p
        obtain ⟨hmem, hqt⟩ := findPos_mem hF
        by_cases hov : p.shares < i.shares
        · simp [Ledger.Apply, h0, hA, hF, hov] at h
        · by_cases hneg : s.cash + i.shares * i.price < 0
          · simp [Ledger.Apply, h0, hA, hF, hov, hneg] at h
          · by_cases hall : p.shares = i.shares
            · simp [Ledger.Apply, h0, hA, hF, hov, hneg, hall] at h
              refine ⟨⟨?_, ?_⟩, ?_⟩
              · intro q hq
                rw [← h] at hq
                exact hpos q (mem_removePos.mp hq).1
              · rw [← h]
                exact pairwise_removePos hpw
              · intro _ _
                rw [← h]
                exact findPos_removePos s.positions i.ticker
            · simp [Ledger.Apply, h0, hA, hF, hov, hneg, hall] at h
              refine ⟨⟨?_, ?_⟩, ?_⟩
              · intro q hq
                rw [← h] at hq
                simp only [List.mem_append, List.mem_singleton] at hq
                rcases hq with hq | hq
                · exact hpos q (mem_removePos.mp hq).1
                · rw [hq]
                  have hle : i.shares ≤ p.shares := not_lt.mp hov
                  have hlt : i.shares < p.shares :=
                    lt_of_le_of_ne hle (fun heq => hall heq.symm)
                  simpa using sub_pos.mpr hlt
              · rw [← h]
                exact pairwise_upsert hpw _ rfl
              · intro _ hheld
                exfalso
                apply hall
                simpa [heldShares, hF] using hheld

/-- Witness for C8: selling the full 5-share position removes its row. -/
theorem position_rows_invariant_witness :
    PosInvariant (⟨1060, []⟩ : LedgerState).positions ∧
      ((⟨"AAA", .SELL, 5, 12⟩ : TradeIntent).action = .SELL →
        heldShares ⟨1000, [⟨"AAA", 5, 10⟩]⟩ "AAA" = 5 →
        findPos (⟨1060, []⟩ : LedgerState).positions "AAA" = none) :=
  position_rows_invariant ⟨1000, [⟨"AAA", 5, 10⟩]⟩ ⟨"AAA", .SELL, 5, 12⟩
    ⟨1060, []⟩ (by norm_num [PosInvariant])
    (by norm_num [Ledger.Apply, findPos, removePos])

/-- C5: for a position with a latest price, the breach scan emits a forced
SELL of the full position exactly when the price is ≤ the stop level or
≥ the target level, where `stop_level = entry_price × (1 + stop_loss_pct/100)`
and `target_level = entry_price × (1 + target_pct/100)`; in particular with
entry price 100 and stop_loss_pct = −5 the stop level is exactly 95. -/
theorem breach_scan_forced_sell (p : OpenPos) (px : ℚ)
    (f : String → Option ℚ) (hf : f p.ticker = some px) :
    (ScanBreaches [p] f = [⟨p.ticker, Action.SELL, p.shares, px⟩] ↔
      px ≤ stopLevel p ∨ targetLevel p ≤ px) ∧
    (ScanBreaches [p] f = [] ↔
      ¬(px ≤ stopLevel p ∨ targetLevel p ≤ px)) ∧
    (p.entry_price = 100 → p.stop_loss_pct = -5 → stopLevel p = 95) := by
  refine ⟨?_, ?_, ?_⟩
  · by_cases hbr : px ≤ stopLevel p ∨ targetLevel p ≤ px
    all_goals simp [ScanBreaches, hf, breachIntent, hbr]
  · by_cases hbr : px ≤ stopLevel p ∨ targetLevel p ≤ px
    all_goals simp [ScanBreaches, hf, breachIntent, hbr]
  · intro he hs
    rw [stopLevel, he, hs]
    norm_num

/-- Witness for C5: entry 100, stop_loss_pct −5, target_pct +8: price 95.00
forces the exit of all 50 shares and price 95.01 does not. -/
theorem breach_scan_forced_sell_witness :
    (ScanBreaches [⟨"AAA", 50, 100, -5, 8⟩] (fun _ => some 95) =
      [⟨"AAA", Action.SELL, 50, 95⟩]) ∧
    (ScanBreaches [⟨"AAA", 50, 100, -5, 8⟩] (fun _ => some 95.01) = []) := by
  constructor
  · exact (breach_scan_forced_sell ⟨"AAA", 50, 100, -5, 8⟩ 95 (fun _ => some 95)
      rfl).1.mpr (by norm_num [stopLevel, targetLevel])
  · exact (breach_scan_forced_sell ⟨"AAA", 50, 100, -5, 8⟩ 95.01
      (fun _ => some 95.01) rfl).2.1.mpr (by norm_num [stopLevel, targetLevel])

theorem filterMap_contribution_filter (deps : List InputDependency)
    (m : String → Option ℚ) :
    (deps.filter (fun d => d.macro_symbol.isSome)).filterMap (contribution m) =
      deps.filterMap (contribution m) := by
  induction deps with
  | nil => rfl
  | cons d deps ih =>
    cases hd : d.macro_symbol with
    | none => simp [List.filter_cons, hd, contribution, ih]
    | some sym => simp [List.filter_cons, hd, List.filterMap_cons, ih]

/-- C6: the exposure score always lies in [-1, 1]; dependencies with a null
macro_symbol are excluded (filtering them away does not change the score);
and a dependency with an available macro observation contributes
impact_strength × normalized change when its direction is revenue and the
negation of that when its direction is cost. -/
theorem compute_exposure_spec (deps : List InputDependency)
    (macroChange : String → Option ℚ) :
    (-1 ≤ ComputeExposure deps macroChange ∧
      ComputeExposure deps macroChange ≤ 1) ∧
    ComputeExposure (deps.filter (fun d => d.macro_symbol.isSome)) macroChange =
      ComputeExposure deps macroChange ∧
    (∀ d ∈ deps, ∀ sym ch, d.macro_symbol = some sym →
      macroChange sym = some ch →
      ((d.impact_direction = .revenue →
        contribution macroChange d = some (d.impact_strength * normalizeChange ch)) ∧
       (d.impact_direction = .cost →
        contribution macroChange d =
          some (-(d.impact_strength * normalizeChange ch))))) := by
  refine ⟨⟨le_max_left _ _, ?_⟩, ?_, ?_⟩
  · exact max_le (by norm_num) (min_le_left _ _)
  · unfold ComputeExposure
    rw [filterMap_contribution_filter]
  · intro d _ sym ch hsym hch
    constructor
    · intro hdir
      simp [contribution, hsym, hch, hdir]
    · intro hdir
      simp [contribution, hsym, hch, hdir]

/-- Witness for C6: a cost-direction copper dependency with strength 0.7 and
an observed change of +2 contributes −(0.7 × normalized 2). -/
theorem compute_exposure_spec_witness :
    contribution (fun _ => some 2)
      ⟨"Koppar", some "HG=F", ImpactDirection.cost, 7/10⟩ =
      some (-((7/10 : ℚ) * normalizeChange 2)) :=
  ((compute_exposure_spec
    [⟨"Koppar", some "HG=F", ImpactDirection.cost, 7/10⟩]
    (fun _ => some 2)).2.2
    ⟨"Koppar", some "HG=F", ImpactDirection.cost, 7/10⟩ (by simp)
    "HG=F" 2 rfl rfl).2 rfl

/-- C7: the Decision Engine is deterministic — ProposeIntents is a pure
function of exposure scores, signals, open positions, prices, cash,
learnings and configuration, so identical inputs always produce the
identical list of trade intents, with no hidden randomness. -/
theorem propose_intents_deterministic (a b : DecisionInput) (h : a = b) :
    ProposeIntents a = ProposeIntents b := by
  rw [h]

/-- Witness for C7: replaying a concrete input reproduces its intents. -/
theorem propose_intents_deterministic_witness :
    ProposeIntents
      ⟨[("AAA", 1/2)], [("AAA", 1/4)], [], [("AAA", 100)], 20000, [],
        ⟨1/5, 500, 60, 40, 1/10⟩⟩ =
    ProposeIntents
      ⟨[("AAA", 1/2)], [("AAA", 1/4)], [], [("AAA", 100)], 20000, [],
        ⟨1/5, 500, 60, 40, 1/10⟩⟩ :=
  propose_intents_deterministic _ _ rfl

theorem positionsValue_eq_spec (portfolio : List PortfolioRow)
    (prices : List PriceRow) :
    positionsValue portfolio prices = specPositionsSum portfolio prices := by
  induction portfolio with
  | nil => rfl
  | cons p pf ih =>
    cases hc : latestClose prices p.ticker
    · simp [positionsValue, specPositionsSum, List.filterMap_cons, hc] at *
      simpa using ih
    · simp [positionsValue, specPositionsSum, List.filterMap_cons, hc] at *
      rw [ih]

/-- C2: the total portfolio value reported by the portfolio route equals
Σ(position.shares × latest price) + cash exactly — a reconciliation error of
0, well within the 0.01 rounding epsilon — for every database state, hence
in particular after every ledger mutation. -/
theorem total_value_reconciles (balanceRows : List BalanceRow)
    (portfolio : List PortfolioRow) (prices : List PriceRow) :
    |(portfolioGET balanceRows portfolio prices false).total_value -
      (specPositionsSum portfolio prices +
        (portfolioGET balanceRows portfolio prices false).cash)| ≤ 1 / 100 := by
  simp only [portfolioGET, Bool.false_eq_true, if_false]
  rw [← positionsValue_eq_spec]
  ring_nf
  norm_num

/-- Counterexample to C9 as stated: with no balance row but a live
10-share position priced at 500, the endpoint does NOT return the fallback
{cash 20000, positions_value 0, total_value 20000, pnl 0, pnl_pct 0} —
positions_value is still computed from the portfolio. -/
theorem portfolio_fallback_counterexample :
    portfolioGET [] [⟨"AAA", 10⟩] [⟨"AAA", 0, 500⟩] false ≠
      ⟨20000, 0, 20000, 0, 0⟩ := by
  simp [portfolioGET, positionsValue, latestClose]

/-- C9 (amended): every response satisfies pnl = total_value − 20000 and
pnl_pct = (total_value/20000 − 1) × 100, the baseline 20000 a fixed
literal; a thrown query error produces the fixed fallback body; a missing
balance row merely defaults cash to 20000 while positions_value is still
computed, so total_value = 20000 + positions_value. -/
theorem portfolio_route_pnl (balanceRows : List BalanceRow)
    (portfolio : List PortfolioRow) (prices : List PriceRow) (e : Bool) :
    ((portfolioGET balanceRows portfolio prices e).pnl =
        (portfolioGET balanceRows portfolio prices e).total_value - 20000 ∧
      (portfolioGET balanceRows portfolio prices e).pnl_pct =
        ((portfolioGET balanceRows portfolio prices e).total_value / 20000 - 1)
          * 100) ∧
    (e = true →
      portfolioGET balanceRows portfolio prices e = ⟨20000, 0, 20000, 0, 0⟩) ∧
    (balanceRows = [] →
      (portfolioGET balanceRows portfolio prices false).cash = 20000 ∧
      (portfolioGET balanceRows portfolio prices false).total_value =
        20000 + positionsValue portfolio prices) := by
  refine ⟨?_, ?_, ?_⟩
  · cases e
    · simp [portfolioGET]
    · simp [portfolioGET]
  · intro he
    rw [he]
    simp [portfolioGET]
  · intro hb
    rw [hb]
    simp [portfolioGET]

/-- Witness for C9's amended claim: error path returns the fallback; with no
balance row, cash defaults to 20000 and the live position still counts. -/
theorem portfolio_route_pnl_witness :
    portfolioGET [] [⟨"AAA", 10⟩] [⟨"AAA", 0, 500⟩] true =
      ⟨20000, 0, 20000, 0, 0⟩ ∧
    ((portfolioGET [] [⟨"AAA", 10⟩] [⟨"AAA", 0, 500⟩] false).cash = 20000 ∧
      (portfolioGET [] [⟨"AAA", 10⟩] [⟨"AAA", 0, 500⟩] false).total_value =
        20000 + positionsValue [⟨"AAA", 10⟩] [⟨"AAA", 0, 500⟩]) :=
  ⟨(portfolio_route_pnl [] [⟨"AAA", 10⟩] [⟨"AAA", 0, 500⟩] true).2.1 rfl,
   (portfolio_route_pnl [] [⟨"AAA", 10⟩] [⟨"AAA", 0, 500⟩] false).2.2 rfl⟩

theorem mem_insertDesc {b r : TradeRow} {l : List TradeRow} :
    b ∈ insertDesc r l ↔ b = r ∨ b ∈ l := by
  induction l with
  | nil => simp [insertDesc]
  | cons x xs ih =>
    by_cases hc : r.executed_at ≤ x.executed_at
    · simp [insertDesc, hc, ih]
      tauto
    · simp [insertDesc, hc]

theorem insertDesc_sorted (r : TradeRow) (l : List TradeRow)
    (h : DescSorted l) : DescSorted (insertDesc r l) := by
  induction l with
  | nil => simp [insertDesc, DescSorted]
  | cons x xs ih =>
    rw [DescSorted, List.pairwise_cons] at h
    obtain ⟨hx, hxs⟩ := h
    by_cases hc : r.executed_at ≤ x.executed_at
    · rw [insertDesc, if_pos hc, DescSorted, List.pairwise_cons]
      refine ⟨?_, ih hxs⟩
      intro b hb
      rcases mem_insertDesc.mp hb with hb | hb
      · rw [hb]
        exact hc
      · exact hx b hb
    · rw [insertDesc, if_neg hc, DescSorted, List.pairwise_cons]
      push_neg at hc
      refine ⟨?_, List.pairwise_cons.mpr ⟨hx, hxs⟩⟩
      intro b hb
      rcases List.mem_cons.mp hb with hb | hb
      · rw [hb]
        exact le_of_lt hc
      · exact le_trans (hx b hb) (le_of_lt hc)

theorem sortDesc_sorted (l : List TradeRow) : DescSorted (sortDesc l) := by
  induction l with
  | nil => simp [sortDesc, DescSorted]
  | cons x xs ih => exact insertDesc_sorted x (sortDesc xs) ih

/-- C10: the trades listing always answers status 200 with a JSON array
body; the body holds at most 50 rows, ordered by executed_at descending; on
a thrown database error it is the empty array, identical to the response
for an empty trades table, so the reader cannot distinguish the two. -/
theorem trades_route_shape (db : Option (List TradeRow)) :
    (tradesGET db).status = 200 ∧
    (tradesGET db).body.length ≤ 50 ∧
    DescSorted (tradesGET db).body ∧
    (db = none → (tradesGET db).body = []) ∧
    tradesGET none = tradesGET (some []) := by
  cases db
  · refine ⟨rfl, by simp [tradesGET], by simp [tradesGET, DescSorted], ?_, rfl⟩
    intro _
    rfl
  · rename_i rows
    refine ⟨rfl, ?_, ?_, ?_, rfl⟩
    · exact List.length_take_le 50 (sortDesc rows)
    · exact List.Pairwise.sublist (List.take_sublist 50 (sortDesc rows))
        (sortDesc_sorted rows)
    · intro hcontra
      cases hcontra

/-- Witness for C10: the error response body is the empty array. -/
theorem trades_route_shape_witness :
    (tradesGET (none : Option (List TradeRow))).body = [] :=
  (trades_route_shape none).2.2.2.1 rfl

end Trading
